import Mathlib

/-!
Verification of the BufferWriter format engine (src/src/bw_format.cc).

The C++ source is shallowly embedded over `List Char`:
  * text views become `List Char`, with view splitting as take/drop;
  * the BufferWriter sink becomes a storage list plus a write cursor
    (`BW`), with write / commit / discard / copy as in the source
    (copy has memmove semantics: it reads from a snapshot of the buffer);
  * machine integers become `Nat`/`Int` (no claim exercises overflow);
  * `double` values become exact rationals (`Rat`); the non-finite
    classifications other than zero have no rational inhabitant;
  * exceptions (`std::invalid_argument`) become `Except String`.
Constants and default field values of `bwf::Spec` live in the header
`bwf_base.h`, which is not part of the sources; those are modelled from
the spec (section 3 and 4.1): default fill is a space, default index is
negative, sign markers are the space / minus / plus characters with
NEGATIVE-ONLY as default, default type is the generic type character,
an unset max width is effectively unbounded, unset precision is -1.
-/

namespace BWF

/-- Alignment modes of a specifier (values from the property table at
bw_format.cc lines 94-97). -/
inductive Align where
  | NONE
  | LEFT
  | RIGHT
  | CENTER
  | SIGN
deriving DecidableEq

/-- Sign marker meaning a sign character is never emitted.
Modelled from the spec: header constant (space character). -/
def SIGN_NEVER : Char := ' '

/-- Sign marker meaning a sign character only for negative values (default).
Modelled from the spec: header constant (minus character). -/
def SIGN_NEG : Char := '-'

/-- Sign marker meaning a sign character is always emitted.
Modelled from the spec: header constant (plus character). -/
def SIGN_ALWAYS : Char := '+'

/-- Internal type character marking a literal item in a compiled format.
Modelled from the spec: header constant. -/
def LITERAL_TYPE : Char := '\x22'

/-- Internal type character marking a deferred-capture specifier.
Modelled from the spec: header constant. -/
def CAPTURE_TYPE : Char := '\x01'

/-- One format specifier, mirroring bwf::Spec. Field defaults are
modelled from the spec (the header with the in-class initializers is
not among the sources). -/
structure Spec where
  _name : List Char := []
  _idx : Int := -1
  _fill : Char := ' '
  _sign : Char := '-'
  _align : Align := Align.NONE
  _radix_lead_p : Bool := false
  _min : Nat := 0
  _prec : Int := -1
  _max : Nat := 65535
  _type : Char := 'g'
  _ext : List Char := []
deriving DecidableEq

/-- The default-constructed specifier (Spec::DEFAULT). -/
def Spec.DEFAULT : Spec := {}

/-- take_prefix_at for a character delimiter: the prefix before the first
occurrence (the whole view when absent), and the remainder past the
delimiter. -/
def takePrefixAt (c : Char) (l : List Char) : List Char × List Char :=
  let i := l.findIdx (fun x => x == c)
  (l.take i, l.drop (i + 1))

/-- isspace, as used by the numeric scanner. -/
def isSpaceC (c : Char) : Bool :=
  c == ' ' || c == '\t' || c == '\n' || c == '\x0b' || c == '\x0c' || c == '\r'

/-- isdigit for the decimal scanner. -/
def isDigitC (c : Char) : Bool :=
  48 ≤ c.toNat && c.toNat ≤ 57

/-- The local radix10 helper (bw_format.cc lines 48-63): skip leading
whitespace, parse a run of decimal digits; returns the value and the view
of the digits actually consumed (empty when none). -/
def radix10 (src : List Char) : Nat × List Char :=
  let s := src.dropWhile isSpaceC
  let num := s.takeWhile isDigitC
  (num.foldl (fun acc c => acc * 10 + (c.toNat - 48)) 0, num)

/-- Alignment classification of a character (property table entries). -/
def alignOf (c : Char) : Align :=
  if c = '<' then Align.LEFT
  else if c = '>' then Align.RIGHT
  else if c = '^' then Align.CENTER
  else if c = '=' then Align.SIGN
  else Align.NONE

/-- Sign-marker classification (property table lines 90-92; the marker
characters themselves are modelled from the spec). -/
def isSign (c : Char) : Bool :=
  c == SIGN_NEVER || c == SIGN_NEG || c == SIGN_ALWAYS

/-- Type-character classification (property table lines 78-88). -/
def isType (c : Char) : Bool :=
  c == 'b' || c == 'B' || c == 'd' || c == 'g' || c == 'o' || c == 'p' ||
  c == 'P' || c == 's' || c == 'S' || c == 'x' || c == 'X'

/-- isxdigit. -/
def isHexDigitC (c : Char) : Bool :=
  isDigitC c || (97 ≤ c.toNat && c.toNat ≤ 102) || (65 ≤ c.toNat && c.toNat ≤ 70)

/-- Value of one hex digit, as computed in the fill-escape branch. -/
def hexVal (c : Char) : Nat :=
  if isDigitC c then c.toNat - 48 else c.toLower.toNat - 97 + 10

/-- Fill-and-alignment portion of Spec::parse (lines 119-140). -/
def parseFillAlign (spec : Spec) (sz : List Char) : Except String (Spec × List Char) :=
  if sz.headD '\x00' = '%' then
    if sz.length < 4 then
      Except.error "Fill URI encoding without 2 hex characters and align mark"
    else
      let al := alignOf (sz.getD 3 '\x00')
      if al = Align.NONE then
        Except.error "Fill URI without alignment mark"
      else
        let d1 := sz.getD 1 '\x00'
        let d0 := sz.getD 2 '\x00'
        if ¬ (isHexDigitC d0) ∨ ¬ (isHexDigitC d1) then
          Except.error "URI encoding with non-hex characters"
        else
          let spec1 := { spec with _align := al }
          Except.ok ({ spec1 with _fill := Char.ofNat (hexVal d0 + 16 * hexVal d1) }, sz.drop 4)
  else if sz.length > 1 ∧ alignOf (sz.getD 1 '\x00') ≠ Align.NONE then
    let spec1 := { spec with _align := alignOf (sz.getD 1 '\x00') }
    Except.ok ({ spec1 with _fill := sz.headD '\x00' }, sz.drop 2)
  else if alignOf (sz.headD '\x00') ≠ Align.NONE then
    Except.ok ({ spec with _align := alignOf (sz.headD '\x00') }, sz.drop 1)
  else
    Except.ok (spec, sz)

/-- Precision portion of Spec::parse (lines 175-186): a dot must be
followed by digits parseable by radix10, otherwise it is an error. -/
def parsePrec (spec : Spec) (sz : List Char) : Except String (Spec × List Char) :=
  if sz.headD '\x00' = '.' then
    let sz1 := sz.drop 1
    let (n, num) := radix10 sz1
    if num.length ≠ 0 then
      Except.ok ({ spec with _prec := (n : Int) }, sz1.drop num.length)
    else
      Except.error "Precision mark without precision"
  else
    Except.ok (spec, sz)

/-- Maximum-width portion of Spec::parse (lines 195-213): a comma must be
followed by digits, optionally followed by a type override. -/
def parseMax (spec : Spec) (sz : List Char) : Except String (Spec × List Char) :=
  if sz.headD '\x00' = ',' then
    let sz1 := sz.drop 1
    let (n, num) := radix10 sz1
    if num.length ≠ 0 then
      let spec1 := { spec with _max := n }
      let sz2 := sz1.drop num.length
      if isType (sz2.headD '\x00') then
        Except.ok ({ spec1 with _type := sz2.headD '\x00' }, sz2.drop 1)
      else
        Except.ok (spec1, sz2)
    else
      Except.error "Maximum width mark without width"
  else
    Except.ok (spec, sz)

/-- Spec::parse (lines 102-217). Block-local early returns on exhausted
input are realized by emptiness checks between the stages; each remaining
stage is a no-op on empty input, so the result is the same. -/
def specParse (fmt0 : List Char) : Except String Spec := do
  let mut spec : Spec := {}
  let (name, fmtA) := takePrefixAt ':' fmt0
  let (n0, num0) := radix10 name
  spec := { spec with _name := name }
  if num0.length = name.length then
    spec := { spec with _idx := (n0 : Int) }
  if fmtA.length = 0 then
    return spec
  let (szA, ext) := takePrefixAt ':' fmtA
  spec := { spec with _ext := ext }
  if szA.length = 0 then
    return spec
  let mut sz := szA
  let fa ← parseFillAlign spec sz
  spec := fa.1
  sz := fa.2
  if sz.length = 0 then
    return spec
  if isSign (sz.headD '\x00') then
    spec := { spec with _sign := sz.headD '\x00' }
    sz := sz.drop 1
    if sz.length = 0 then
      return spec
  if sz.headD '\x00' = '#' then
    spec := { spec with _radix_lead_p := true }
    sz := sz.drop 1
    if sz.length = 0 then
      return spec
  if sz.headD '\x00' = '0' then
    if spec._align = Align.NONE then
      spec := { spec with _align := Align.SIGN }
    spec := { spec with _fill := '0' }
    sz := sz.drop 1
  let (n1, num1) := radix10 sz
  if num1.length ≠ 0 then
    spec := { spec with _min := n1 }
    sz := sz.drop num1.length
    if sz.length = 0 then
      return spec
  let pr ← parsePrec spec sz
  spec := pr.1
  sz := pr.2
  if sz.length = 0 then
    return spec
  if isType (sz.headD '\x00') then
    spec := { spec with _type := sz.headD '\x00' }
    sz := sz.drop 1
    if sz.length = 0 then
      return spec
  let mx ← parseMax spec sz
  return mx.1

/-- Format::TextViewExtractor::parse (lines 223-267): split off the next
literal and/or specifier body; errors on an unopened closing delimiter,
an unclosed opening delimiter, and a lone delimiter as final character. -/
def tvx_parse (fmt : List Char) :
    Except String (List Char × Option (List Char) × List Char) :=
  let off := fmt.findIdx (fun c => c == '\x7b' || c == '\x7d')
  if off = fmt.length then
    Except.ok (fmt, none, [])
  else if off + 1 < fmt.length then
    let c1 := fmt.getD off '\x00'
    let c2 := fmt.getD (off + 1) '\x00'
    if c1 = c2 then
      Except.ok (fmt.take (off + 1), none, fmt.drop (off + 2))
    else if c1 = '\x7d' then
      Except.error "Unopened \x7d in format string."
    else
      let lit := fmt.take off
      let rest := fmt.drop (off + 1)
      if rest.length = 0 then
        Except.ok (lit, none, [])
      else
        let off2 := rest.findIdx (fun c => c == '\x7d')
        if off2 = rest.length then
          Except.error "BWFormat: Unclosed \x7b in format string"
        else
          Except.ok (lit, some (rest.take off2), rest.drop (off2 + 1))
  else
    Except.error "Invalid trailing character in format string."

/-- Format::TextViewExtractor::operator() (lines 269-279): extract the
next piece and run the specifier parser on a specifier body. -/
def tvx_step (fmt : List Char) :
    Except String (List Char × Option Spec × List Char) := do
  let r ← tvx_parse fmt
  match r.2.1 with
  | none => return (r.1, none, r.2.2)
  | some sv => do
    let s ← specParse sv
    return (r.1, some s, r.2.2)

/-- Loop body of Format::Format (lines 633-661), with explicit fuel (each
successful extraction consumes at least one input character, so fuel
equal to the input length suffices). -/
def compileLoop : Nat → List Char → Int → Except String (List Spec)
  | 0, _, _ => Except.ok []
  | fuel + 1, fmt, arg_idx =>
    if fmt.length = 0 then Except.ok []
    else do
      let r ← tvx_step fmt
      let lit := r.1
      let litItems : List Spec :=
        if lit.length ≠ 0 then [{ _type := LITERAL_TYPE, _ext := lit }] else []
      match r.2.1 with
      | none => do
        let tail ← compileLoop fuel r.2.2 arg_idx
        return litItems ++ tail
      | some s0 => do
        let s1 := if s0._name.length = 0 then { s0 with _idx := arg_idx } else s0
        let arg1 := if s0._name.length = 0 then arg_idx + 1 else arg_idx
        let arg2 := if s1._idx ≥ 0 then arg1 + 1 else arg1
        let tail ← compileLoop fuel r.2.2 arg2
        return litItems ++ [s1] ++ tail

/-- Format::Format: compile a template into its item sequence. -/
def Format_compile (fmt : List Char) : Except String (List Spec) :=
  compileLoop (fmt.length + 1) fmt 0

/-- Pad a buffer with unspecified (NUL-modelled) resident bytes up to
length n. -/
def padTo (l : List Char) (n : Nat) : List Char :=
  l ++ List.replicate (n - l.length) '\x00'

/-- The BufferWriter sink: resident storage and the write cursor. -/
structure BW where
  storage : List Char
  cursor : Nat
deriving DecidableEq

/-- The bytes logically written: the first cursor bytes of storage. -/
def BW.output (b : BW) : List Char :=
  (padTo b.storage b.cursor).take b.cursor

/-- Store one byte at position i (extending the resident area if needed). -/
def bufSet (l : List Char) (i : Nat) (c : Char) : List Char :=
  (padTo l (i + 1)).set i c

/-- BufferWriter::write of one byte. -/
def BW.write (b : BW) (c : Char) : BW :=
  ⟨bufSet b.storage b.cursor c, b.cursor + 1⟩

/-- n consecutive writes of the same byte (the fill loops). -/
def BW.writeN : BW → Char → Nat → BW
  | b, _, 0 => b
  | b, c, n + 1 => BW.writeN (b.write c) c n

/-- BufferWriter::commit: advance the cursor over resident bytes. -/
def BW.commit (b : BW) (n : Nat) : BW :=
  ⟨b.storage, b.cursor + n⟩

/-- BufferWriter::discard: retract the cursor. -/
def BW.discard (b : BW) (n : Nat) : BW :=
  ⟨b.storage, b.cursor - n⟩

/-- memmove within the buffer: bytes [src, src+len) of the old contents
are placed at [dst, dst+len); all reads are from the old contents. -/
def bufCopy (l : List Char) (dst src len : Nat) : List Char :=
  (padTo l dst).take dst ++ ((padTo l (src + len)).drop src).take len
    ++ l.drop (dst + len)

/-- BufferWriter::copy. -/
def BW.copy (b : BW) (dst src len : Nat) : BW :=
  ⟨bufCopy b.storage dst src len, b.cursor⟩

/-- Left/right fill division of Adjust_Alignment (lines 315-322): values
are left justified by default, RIGHT puts all fill before, CENTER halves
with the odd byte on the right. -/
def alignSplit (a : Align) (delta : Nat) : Nat × Nat :=
  match a with
  | Align.RIGHT => (delta, 0)
  | Align.CENTER => (delta / 2, (delta + 1) / 2)
  | _ => (0, delta)

/-- Adjust_Alignment (lines 308-343): pad a value already in the sink out
to the minimum width, or truncate it to the maximum width. -/
def Adjust_Alignment (spec : Spec) (aux : BW) : BW :=
  let extent := aux.cursor
  if extent < spec._min then
    let delta := spec._min - extent
    let ld := (alignSplit spec._align delta).1
    let rd := (alignSplit spec._align delta).2
    let aux2 :=
      if 0 < ld then
        ((((aux.commit ld).copy ld 0 extent).discard (extent + ld)).writeN
            spec._fill ld).commit extent
      else aux
    aux2.writeN spec._fill rd
  else if spec._max < extent then
    aux.discard (extent - spec._max)
  else
    aux

/-- Lower-case digit alphabet (line 350). -/
def LOWER_DIGITS : List Char :=
  String.toList "0123456789abcdefghijklmnopqrstuvwxyz"

/-- Upper-case digit alphabet (line 349). -/
def UPPER_DIGITS : List Char :=
  String.toList "0123456789ABCDEFGHIJKLMNOPQRSTUVWXYZ"

/-- The division loop of To_Radix, building digits most significant
first (the source fills a scratch buffer from its end; the produced list
is the final digit slice). Fuel n suffices for any radix of at least 2. -/
def toRadixAux (R : Nat) (alpha : List Char) : Nat → Nat → List Char
  | 0, _ => []
  | _ + 1, 0 => []
  | fuel + 1, n + 1 =>
    toRadixAux R alpha fuel ((n + 1) / R) ++ [alpha.getD ((n + 1) % R) '0']

/-- To_Radix (lines 359-374): the digit sequence of n in radix R using
the given digit alphabet; zero yields a single zero digit. -/
def To_Radix (R : Nat) (n : Nat) (alpha : List Char) : List Char :=
  if n = 0 then ['0'] else toRadixAux R alpha n n

/-- Read a digit sequence back as a base-R numeral, recovering each digit
value as its position in the alphabet. -/
def decodeRadix (R : Nat) (alpha : List Char) (ds : List Char) : Nat :=
  ds.foldl (fun acc c => acc * R + alpha.indexOf c) 0

/-- Write_Aligned (lines 376-427) over a value produced by the callback,
here the byte list the callback would write. The while loops write
max(width, 0) fill bytes; for CENTER the integer halvings agree with the
natural-number halvings of max(width, 0). The neg byte is written only
when nonzero. -/
def Write_Aligned (body : List Char) (align : Align) (width : Int)
    (fill : Char) (neg : Char) : List Char :=
  let negL : List Char := if neg ≠ '\x00' then [neg] else []
  let wn : Nat := width.toNat
  match align with
  | Align.LEFT => negL ++ body ++ List.replicate wn fill
  | Align.RIGHT => List.replicate wn fill ++ negL ++ body
  | Align.CENTER =>
    List.replicate (wn / 2) fill ++ negL ++ body
      ++ List.replicate ((wn + 1) / 2) fill
  | Align.SIGN => negL ++ List.replicate wn fill ++ body
  | Align.NONE => negL ++ body

/-- The sign character computed by Format_Integer (lines 439-445); the
NUL character models the zero char meaning no sign is written. -/
def Int_sign_char (spec : Spec) (neg_p : Bool) : Char :=
  if spec._sign ≠ SIGN_NEVER then
    if neg_p then '-'
    else if spec._sign = SIGN_ALWAYS then spec._sign
    else '\x00'
  else '\x00'

/-- The digit sequence chosen by the type switch of Format_Integer
(lines 447-471). -/
def Int_digits (spec : Spec) (i : Nat) : List Char :=
  match spec._type with
  | 'x' => To_Radix 16 i LOWER_DIGITS
  | 'X' => To_Radix 16 i UPPER_DIGITS
  | 'b' => To_Radix 2 i LOWER_DIGITS
  | 'B' => To_Radix 2 i UPPER_DIGITS
  | 'o' => To_Radix 8 i LOWER_DIGITS
  | _ => To_Radix 10 i LOWER_DIGITS

/-- The radix lead bytes written by Format_Integer: prefix1 is the zero
byte when the radix lead flag is set (cleared again for decimal), and
prefix2 is the radix letter for the hex and binary types. -/
def Int_pfx (spec : Spec) : List Char :=
  if spec._radix_lead_p then
    match spec._type with
    | 'x' => ['0', 'x']
    | 'X' => ['0', 'X']
    | 'b' => ['0', 'b']
    | 'B' => ['0', 'B']
    | 'o' => ['0']
    | _ => []
  else []

/-- Format_Integer (lines 429-514): sign, radix prefix, fill and digits,
with the width budget reduced by the sign and prefix bytes. -/
def Format_Integer (spec : Spec) (i : Nat) (neg_p : Bool) : List Char :=
  let neg := Int_sign_char spec neg_p
  let digits := Int_digits spec i
  let pfx := Int_pfx spec
  let width : Int := (spec._min : Int) - (if neg ≠ '\x00' then 1 else 0)
    - pfx.length - digits.length
  if spec._align = Align.SIGN then
    (if neg ≠ '\x00' then [neg] else []) ++ pfx
      ++ List.replicate width.toNat spec._fill ++ digits
  else
    Write_Aligned (pfx ++ digits) spec._align width spec._fill neg

/-- POWERS_OF_TEN (lines 351-352). -/
def POWERS_OF_TEN : List Nat :=
  [1, 10, 100, 1000, 10000, 100000, 1000000, 10000000, 100000000,
   1000000000, 10000000000]

/-- The table-extension loop of Format_Float for precision beyond the
table. -/
def shiftLoop : Nat → Nat → Nat
  | 0, s => s
  | p + 1, s => shiftLoop p (s * 10)

/-- The fraction shift of Format_Float (lines 583-591): table lookup,
extended by repeated multiplication. -/
def shiftOf (precision : Nat) : Nat :=
  if precision < POWERS_OF_TEN.length then
    POWERS_OF_TEN.getD precision 1
  else
    shiftLoop (precision - (POWERS_OF_TEN.length - 1))
      (POWERS_OF_TEN.getD (POWERS_OF_TEN.length - 1) 1)

/-- The fraction precision used by Format_Float (line 571): the default
of 2 when the spec still carries the default precision. -/
def precisionOf (spec : Spec) : Nat :=
  if spec._prec = Spec.DEFAULT._prec then 2 else spec._prec.toNat

/-- Format_Float (lines 525-618) over exact rationals. Of the non-normal
classifications only zero is inhabited by a rational; infinities, NaN and
subnormals do not arise in this model. Truncating casts to unsigned become
floor (all values cast are nonnegative). -/
def Format_Float (spec : Spec) (f : Rat) (neg_p : Bool) : List Char :=
  if f = 0 then ['0']
  else
    let whole_part : Nat := f.floor.toNat
    if ((whole_part : Rat) = f) ∨ spec._prec = 0 then
      Format_Integer spec whole_part neg_p
    else
      let precision := precisionOf spec
      let neg : Char := if neg_p then '-'
        else if spec._sign ≠ '-' then spec._sign else '\x00'
      let frac : Rat := f - (whole_part : Rat)
      let shift := shiftOf precision
      let frac_part : Nat := (frac * (shift : Rat) + (1 : Rat) / 2).floor.toNat
      let l := To_Radix 10 whole_part LOWER_DIGITS
      let r := To_Radix 10 frac_part LOWER_DIGITS
      let width : Int := (spec._min : Int) - (if neg ≠ '\x00' then 1 else 0)
        - l.length - 1 - r.length
      Write_Aligned (l ++ ['.'] ++ r) spec._align width spec._fill neg

/-- Hex_Dump (lines 621-630): two hex digits per input byte, high nibble
first. Bytes are taken modulo 256; for byte values the signed shift and
mask of the source compute exactly these nibbles. -/
def Hex_Dump : List Char → List Char → List Char
  | [], _ => []
  | c :: rest, digits =>
    let v := c.toNat % 256
    digits.getD (v / 16) '0' :: digits.getD (v % 16) '0' :: Hex_Dump rest digits

/-- bwformat for a string view (lines 666-688): optional precision
truncation, then either the hex dump path for the x types (with optional
radix prefix written before the aligned value) or the plain aligned
write. -/
def bwformat_sv (spec : Spec) (sv0 : List Char) : List Char :=
  let sv := if 0 < spec._prec then sv0.take spec._prec.toNat else sv0
  if spec._type = 'x' ∨ spec._type = 'X' then
    let digits := if spec._type = 'x' then LOWER_DIGITS else UPPER_DIGITS
    let width1 : Int := (spec._min : Int) - 2 * sv.length
    let pfx : List Char := if spec._radix_lead_p then ['0', spec._type] else []
    let width2 : Int := if spec._radix_lead_p then width1 - 2 else width1
    pfx ++ Write_Aligned (Hex_Dump sv digits) spec._align width2 spec._fill '\x00'
  else
    let width : Int := (spec._min : Int) - sv.length
    Write_Aligned sv spec._align width spec._fill '\x00'

/-- The write loop of the Pattern renderer (lines 917-927), with fuel:
when the pattern is nonempty the counter grows by its length every
iteration, so fuel equal to the limit suffices; with an empty pattern the
limit is zero and the loop never runs. -/
def patternLoop (text : List Char) (limit : Nat) : Nat → Nat → List Char
  | 0, _ => []
  | fuel + 1, n =>
    if n < limit then text ++ patternLoop text limit fuel (n + text.length)
    else []

/-- bwformat for a Pattern: whole copies of the text until the byte
count reaches min(max width, text length times count). -/
def bwformat_pattern (spec : Spec) (text : List Char) (count : Nat) : List Char :=
  let limit := min spec._max (text.length * count)
  patternLoop text limit limit 0

/-- The persistent state of the printf translator C_Format: the rest of
the format text, the pending precision-capture flag and the saved
deferred specifier. -/
structure CFState where
  fmt : List Char
  prec_p : Bool := false
  saved_p : Bool := false
  saved : Spec := {}
deriving DecidableEq

/-- C_Format::capture (lines 946-964): store a captured integer as the
saved width or precision according to the capture extension. -/
def cf_capture (st : CFState) (spec : Spec) (v : Nat) : CFState :=
  let saved1 := if spec._ext = ['w'] then { st.saved with _min := v } else st.saved
  let saved2 := if spec._ext = ['p'] then { saved1 with _prec := (v : Int) } else saved1
  { st with saved := saved2 }

/-- The flag loop of C_Format::operator() (lines 998-1014). -/
def cfFlags : Spec → List Char → Spec × List Char
  | spec, [] => (spec, [])
  | spec, c :: rest =>
    if c = '-' then cfFlags { spec with _align := Align.LEFT } rest
    else if c = '+' then cfFlags { spec with _sign := SIGN_ALWAYS } rest
    else if c = ' ' then cfFlags { spec with _sign := SIGN_NEVER } rest
    else if c = '#' then cfFlags { spec with _radix_lead_p := true } rest
    else if c = '0' then cfFlags { spec with _fill := '0' } rest
    else (spec, c :: rest)

/-- The conversion-character mapping of C_Format (lines 1058-1084):
some type character, or none for the default case. -/
def cfConvOf (c : Char) : Option Char :=
  if c = 'c' then some c
  else if c = 'i' ∨ c = 'd' ∨ c = 'j' ∨ c = 'z' then some 'd'
  else if c = 'x' ∨ c = 'X' then some c
  else if c = 'f' then some 'f'
  else if c = 's' then some 's'
  else if c = 'p' then some c
  else none

/-- C_Format::operator() (lines 966-1101): one step of the translator.
Returns the literal run, the produced specifier if any, and the new
state. Reading one past the end of the view is modelled as the NUL byte
of the terminated underlying buffer. -/
def cfp (st : CFState) : List Char × Option Spec × CFState :=
  if st.prec_p then
    ([], some { _type := CAPTURE_TYPE, _ext := ['p'] }, { st with prec_p := false })
  else if st.saved_p then
    ([], some st.saved, { st with saved_p := false })
  else if st.fmt ≠ [] then
    let start := st.fmt
    let (lit0, f1) := takePrefixAt '%' start
    if f1 = [] then
      (lit0, none, { st with fmt := [] })
    else if f1.headD '\x00' = '%' then
      (lit0 ++ ['%'], none, { st with fmt := f1.drop 1 })
    else
      let (s1, f2) := cfFlags { _align := Align.RIGHT } f1
      if f2 = [] then
        (start, none, { st with fmt := [] })
      else
        let (width_p, s2, f3) :=
          if f2.headD '\x00' = '*' then (true, s1, f2.drop 1)
          else
            let (w, parsed) := radix10 f2
            (false, if parsed.length ≠ 0 then { s1 with _min := w } else s1, f2)
        let (prec_p2, s3, f4) :=
          if f3.headD '\x00' = '.' then
            let fd := f3.drop 1
            if fd.headD '\x00' = '*' then (true, s2, fd.drop 1)
            else
              let (x, parsed) := radix10 fd
              if parsed.length ≠ 0 then (false, { s2 with _prec := (x : Int) }, fd)
              else (false, { s2 with _prec := 0 }, fd)
          else (false, s2, f3)
        if f4 = [] then
          (start, none, { st with fmt := [], prec_p := prec_p2 })
        else
          let c1 := f4.headD '\x00'
          let f5 := f4.drop 1
          let (c2, f6) := if c1 = 'l' ∨ c1 = 'h' then (f5.headD '\x00', f5.drop 1)
            else (c1, f5)
          let (c3, f7) :=
            if c2 = 'l' ∨ c2 = 'z' ∨ c2 = 'j' ∨ c2 = 't' ∨ c2 = 'h' then
              (f6.headD '\x00', f6.drop 1)
            else (c2, f6)
          match cfConvOf c3 with
          | none =>
            (start.take (start.length - f7.length), none,
              { st with fmt := f7, prec_p := prec_p2 })
          | some t =>
            let s4 := { s3 with _type := t }
            if width_p ∨ prec_p2 then
              if width_p then
                (lit0, some { _type := CAPTURE_TYPE, _ext := ['w'] },
                  { fmt := f7, prec_p := prec_p2, saved_p := true, saved := s4 })
              else
                (lit0, some { _type := CAPTURE_TYPE, _ext := ['p'] },
                  { fmt := f7, prec_p := false, saved_p := true, saved := s4 })
            else
              (lit0, some s4, { st with fmt := f7, prec_p := prec_p2 })
  else
    ([], none, st)


theorem padTo_length (l : List Char) (n : Nat) : (padTo l n).length = max l.length n := by
  simp [padTo]
  omega

theorem output_length (b : BW) : b.output.length = b.cursor := by
  simp [BW.output, padTo_length]

theorem output_of_full (b : BW) (h : b.storage.length = b.cursor) : b.output = b.storage := by
  have h0 : b.cursor - b.storage.length = 0 := by omega
  simp [BW.output, padTo, h0]
  omega

theorem bufSet_at_length (l : List Char) (c : Char) : bufSet l l.length c = l ++ [c] := by
  have h1 : l.length + 1 - l.length = 1 := by omega
  rw [bufSet, padTo, h1]
  have h2 : l.length < (l ++ List.replicate 1 '\x00').length := by simp
  rw [List.set_eq_take_cons_drop c h2]
  rw [List.take_left]
  have h3 : (l ++ List.replicate 1 '\x00').length ≤ l.length + 1 := by simp
  rw [List.drop_eq_nil_of_le h3]

theorem bufSet_of_lt (l : List Char) (i : Nat) (c : Char) (h : i < l.length) :
    bufSet l i c = l.set i c := by
  have h0 : i + 1 - l.length = 0 := by omega
  simp [bufSet, padTo, h0]

theorem writeN_append : ∀ (n : Nat) (b : BW) (c : Char), b.storage.length = b.cursor →
    b.writeN c n = ⟨b.storage ++ List.replicate n c, b.cursor + n⟩ := by
  intro n
  induction n with
  | zero => intro b c h; cases b; simp [BW.writeN]
  | succ m ih =>
    intro b c h
    rw [BW.writeN]
    have hw : b.write c = ⟨b.storage ++ [c], b.cursor + 1⟩ := by
      rw [BW.write, ← h, bufSet_at_length]
    rw [hw]
    rw [ih ⟨b.storage ++ [c], b.cursor + 1⟩ c (by simp; omega)]
    simp [List.replicate_succ, BW.mk.injEq]
    omega

theorem writeN_overwrite : ∀ (n : Nat) (b : BW) (c : Char), b.cursor + n ≤ b.storage.length →
    b.writeN c n
      = ⟨b.storage.take b.cursor ++ List.replicate n c ++ b.storage.drop (b.cursor + n),
         b.cursor + n⟩ := by
  intro n
  induction n with
  | zero =>
    intro b c _
    cases b with
    | mk s k => simp [BW.writeN, List.take_append_drop]
  | succ m ih =>
    intro b c h
    have hlt : b.cursor < b.storage.length := by omega
    rw [BW.writeN]
    have hw : b.write c = ⟨b.storage.set b.cursor c, b.cursor + 1⟩ := by
      rw [BW.write, bufSet_of_lt _ _ _ hlt]
    rw [hw]
    rw [ih ⟨b.storage.set b.cursor c, b.cursor + 1⟩ c (by simp; omega)]
    have hset := List.set_eq_take_cons_drop c hlt
    have hlen : (b.storage.take b.cursor).length = b.cursor := by
      simp [List.length_take]; omega
    have htake : (b.storage.set b.cursor c).take (b.cursor + 1)
        = b.storage.take b.cursor ++ [c] := by
      rw [hset, List.take_append_eq_append_take, hlen]
      have e1 : b.cursor + 1 - b.cursor = 1 := by omega
      rw [e1]
      have e2 : (b.storage.take b.cursor).take (b.cursor + 1) = b.storage.take b.cursor := by
        rw [List.take_take]
        have : min (b.cursor + 1) b.cursor = b.cursor := by omega
        rw [this]
      rw [e2]
      rfl
    have hdrop : (b.storage.set b.cursor c).drop (b.cursor + 1 + m)
        = b.storage.drop (b.cursor + 1 + m) := by
      rw [hset, List.drop_append_eq_append_drop, hlen]
      have e1 : b.cursor + 1 + m - b.cursor = m + 1 := by omega
      rw [e1]
      have e2 : (b.storage.take b.cursor).drop (b.cursor + 1 + m) = [] :=
        List.drop_eq_nil_of_le (by omega)
      rw [e2]
      have e3 : (c :: b.storage.drop (b.cursor + 1)).drop (m + 1)
          = (b.storage.drop (b.cursor + 1)).drop m := rfl
      rw [e3, List.drop_drop, List.nil_append]
    rw [htake, hdrop]
    simp only [List.replicate_succ, BW.mk.injEq, List.append_assoc]
    refine ⟨?_, by omega⟩
    have e4 : b.cursor + 1 + m = b.cursor + (m + 1) := by omega
    rw [e4]
    simp

theorem take_padTo_length (v : List Char) (ld : Nat) :
    ((padTo v ld).take ld).length = ld := by
  simp [List.length_take, padTo_length]

theorem bufCopy_pad (v : List Char) (ld : Nat) :
    bufCopy v ld 0 v.length = (padTo v ld).take ld ++ v := by
  have h1 : padTo v (0 + v.length) = v := by simp [padTo]
  have h2 : v.drop (ld + v.length) = [] := List.drop_eq_nil_of_le (by omega)
  rw [bufCopy, h1, h2]
  simp

theorem pad_path (v : List Char) (fill : Char) (ld rd : Nat) :
    ((((((BW.mk v v.length).commit ld).copy ld 0 v.length).discard
        (v.length + ld)).writeN fill ld).commit v.length).writeN fill rd
      = ⟨List.replicate ld fill ++ v ++ List.replicate rd fill,
         ld + v.length + rd⟩ := by
  have s1 : ((BW.mk v v.length).commit ld).copy ld 0 v.length
      = ⟨(padTo v ld).take ld ++ v, v.length + ld⟩ := by
    simp [BW.commit, BW.copy, bufCopy_pad]
  rw [s1]
  have s2 : (BW.mk ((padTo v ld).take ld ++ v) (v.length + ld)).discard (v.length + ld)
      = ⟨(padTo v ld).take ld ++ v, 0⟩ := by
    simp [BW.discard]
  rw [s2]
  have hlen := take_padTo_length v ld
  have s3 : (BW.mk ((padTo v ld).take ld ++ v) 0).writeN fill ld
      = ⟨List.replicate ld fill ++ v, ld⟩ := by
    have hcond : (0 : Nat) + ld ≤ ((padTo v ld).take ld ++ v).length := by
      simp only [List.length_append, hlen]
      omega
    rw [writeN_overwrite ld ⟨(padTo v ld).take ld ++ v, 0⟩ fill hcond]
    have hdrop : ((padTo v ld).take ld ++ v).drop ld = v := by
      have hd := List.drop_left ((padTo v ld).take ld) v
      rwa [hlen] at hd
    simp [hdrop]
  rw [s3]
  have s4 : (BW.mk (List.replicate ld fill ++ v) ld).commit v.length
      = ⟨List.replicate ld fill ++ v, ld + v.length⟩ := by
    simp [BW.commit]
  rw [s4]
  rw [writeN_append rd ⟨List.replicate ld fill ++ v, ld + v.length⟩ fill (by simp)]

theorem adjust_pad_eq (spec : Spec) (v : List Char) (h : v.length < spec._min) :
    Adjust_Alignment spec ⟨v, v.length⟩
      = ⟨List.replicate (alignSplit spec._align (spec._min - v.length)).1 spec._fill ++ v
          ++ List.replicate (alignSplit spec._align (spec._min - v.length)).2 spec._fill,
         (alignSplit spec._align (spec._min - v.length)).1 + v.length
           + (alignSplit spec._align (spec._min - v.length)).2⟩ := by
  unfold Adjust_Alignment
  dsimp only
  rw [if_pos h]
  by_cases h0 : 0 < (alignSplit spec._align (spec._min - v.length)).1
  · rw [if_pos h0]
    exact pad_path v spec._fill _ _
  · rw [if_neg h0]
    have e : (alignSplit spec._align (spec._min - v.length)).1 = 0 := by omega
    rw [e]
    rw [writeN_append _ ⟨v, v.length⟩ spec._fill rfl]
    simp

theorem alignSplit_sum (a : Align) (d : Nat) :
    (alignSplit a d).1 + (alignSplit a d).2 = d := by
  cases a with
  | NONE => dsimp [alignSplit]; omega
  | LEFT => dsimp [alignSplit]; omega
  | RIGHT => dsimp [alignSplit]
  | CENTER => dsimp [alignSplit]; omega
  | SIGN => dsimp [alignSplit]; omega

theorem adjust_pad_output (spec : Spec) (v : List Char) (h : v.length < spec._min) :
    (Adjust_Alignment spec ⟨v, v.length⟩).output
      = List.replicate (alignSplit spec._align (spec._min - v.length)).1 spec._fill ++ v
        ++ List.replicate (alignSplit spec._align (spec._min - v.length)).2 spec._fill := by
  rw [adjust_pad_eq spec v h]
  apply output_of_full
  dsimp only
  simp only [List.length_append, List.length_replicate]

/-- C2, counterexample to the claim as stated: the claim asserts that a
max width smaller than the natural rendered length always truncates the
output to exactly that max width; but when the min width also exceeds
the natural length, the padding branch of Adjust_Alignment runs first
and no truncation happens.  With min 10, max 3 and a value of natural
length 5 the output has length 10, not 3. -/
theorem c2_claim_counterexample :
    ((Adjust_Alignment { _min := 10, _max := 3 } ⟨List.replicate 5 'a', 5⟩).output).length = 10
    ∧ ¬ ((Adjust_Alignment { _min := 10, _max := 3 }
          ⟨List.replicate 5 'a', 5⟩).output).length = 3 := by
  decide

/-- C2 (amended): when min width W exceeds the natural rendered length,
the aligned output has length exactly W; when max width M is smaller
than the natural rendered length and the min width does not exceed that
length, the output is truncated to exactly M and never more. -/
theorem c2_amended :
    (∀ (v : List Char) (spec : Spec), v.length < spec._min →
      ((Adjust_Alignment spec ⟨v, v.length⟩).output).length = spec._min)
  ∧ (∀ (v : List Char) (spec : Spec), spec._min ≤ v.length → spec._max < v.length →
      ((Adjust_Alignment spec ⟨v, v.length⟩).output).length = spec._max) := by
  constructor
  · intro v spec h
    rw [adjust_pad_eq spec v h, output_length]
    dsimp only
    have := alignSplit_sum spec._align (spec._min - v.length)
    omega
  · intro v spec h1 h2
    unfold Adjust_Alignment
    dsimp only
    rw [if_neg (by omega), if_pos h2, output_length]
    dsimp [BW.discard]
    omega

/-- Witness for c2_amended at concrete inputs. -/
theorem c2_amended_witness :
    ((Adjust_Alignment { _min := 7 } ⟨['a', 'b'], 2⟩).output).length = 7
    ∧ ((Adjust_Alignment { _min := 1, _max := 4 } ⟨List.replicate 6 'b', 6⟩).output).length = 4 :=
  ⟨c2_amended.1 ['a', 'b'] { _min := 7 } (by decide),
   c2_amended.2 (List.replicate 6 'b') { _min := 1, _max := 4 } (by decide) (by decide)⟩

/-- C9: for CENTER alignment the padding delta is split as
left = delta / 2 and right = delta - left, so an odd delta puts the
extra fill byte on the right; this holds both for the in-place
Adjust_Alignment and for the callback-based Write_Aligned. -/
theorem c9_center_odd_padding :
    (∀ (v : List Char) (spec : Spec), spec._align = Align.CENTER → v.length < spec._min →
      (spec._min - v.length) % 2 = 1 →
      (Adjust_Alignment spec ⟨v, v.length⟩).output
        = List.replicate ((spec._min - v.length) / 2) spec._fill ++ v
          ++ List.replicate ((spec._min - v.length) - (spec._min - v.length) / 2) spec._fill
      ∧ (spec._min - v.length) - (spec._min - v.length) / 2
          = (spec._min - v.length) / 2 + 1)
  ∧ (∀ (body : List Char) (w : Int) (fill neg : Char), 0 < w → w % 2 = 1 →
      Write_Aligned body Align.CENTER w fill neg
        = List.replicate (w.toNat / 2) fill ++ (if neg ≠ '\x00' then [neg] else []) ++ body
          ++ List.replicate (w.toNat - w.toNat / 2) fill
      ∧ w.toNat - w.toNat / 2 = w.toNat / 2 + 1) := by
  constructor
  · intro v spec ha h hodd
    have hsplit : alignSplit spec._align (spec._min - v.length)
        = ((spec._min - v.length) / 2, (spec._min - v.length + 1) / 2) := by
      rw [ha]
      rfl
    have harith : (spec._min - v.length + 1) / 2
        = (spec._min - v.length) - (spec._min - v.length) / 2 := by omega
    constructor
    · rw [adjust_pad_output spec v h, hsplit]
      rw [harith]
    · omega
  · intro body w fill neg hw hodd
    have harith : (w.toNat + 1) / 2 = w.toNat - w.toNat / 2 := by omega
    constructor
    · simp only [Write_Aligned]
      rw [harith]
    · omega

/-- Witness for c9_center_odd_padding at concrete inputs. -/
theorem c9_witness :
    ((Adjust_Alignment { _min := 5, _align := Align.CENTER, _fill := '.' }
          ⟨['a', 'b'], 2⟩).output
        = List.replicate 1 '.' ++ ['a', 'b'] ++ List.replicate 2 '.'
      ∧ (3 : Nat) - 3 / 2 = 3 / 2 + 1)
  ∧ (Write_Aligned ['z'] Align.CENTER 3 '.' '\x00'
        = List.replicate 1 '.' ++ (if ('\x00' : Char) ≠ '\x00' then ['\x00'] else []) ++ ['z']
          ++ List.replicate 2 '.'
      ∧ ((3 : Int).toNat) - (3 : Int).toNat / 2 = (3 : Int).toNat / 2 + 1) :=
  ⟨c9_center_odd_padding.1 ['a', 'b'] { _min := 5, _align := Align.CENTER, _fill := '.' }
      rfl (by decide) (by decide),
   c9_center_odd_padding.2 ['z'] 3 '.' '\x00' (by decide) (by decide)⟩

theorem decodeRadix_append_one (R : Nat) (alpha : List Char) (xs : List Char) (c : Char) :
    decodeRadix R alpha (xs ++ [c])
      = decodeRadix R alpha xs * R + alpha.indexOf c := by
  simp [decodeRadix, List.foldl_append]

theorem lower_digits_index : ∀ d : Nat, d < 36 →
    LOWER_DIGITS.indexOf (LOWER_DIGITS.getD d '0') = d := by
  decide

theorem upper_digits_index : ∀ d : Nat, d < 36 →
    UPPER_DIGITS.indexOf (UPPER_DIGITS.getD d '0') = d := by
  decide

theorem toRadixAux_decode (R : Nat) (h2 : 2 ≤ R) (h36 : R ≤ 36) (alpha : List Char)
    (halpha : ∀ d : Nat, d < 36 → alpha.indexOf (alpha.getD d '0') = d) :
    ∀ fuel n : Nat, n ≤ fuel →
      decodeRadix R alpha (toRadixAux R alpha fuel n) = n := by
  intro fuel
  induction fuel with
  | zero =>
    intro n hn
    have hz : n = 0 := by omega
    subst hz
    rfl
  | succ m ih =>
    intro n hn
    cases n with
    | zero => rfl
    | succ k =>
      have hdiv : (k + 1) / R ≤ m := by
        have hlt : (k + 1) / R < k + 1 := Nat.div_lt_self (Nat.succ_pos k) (by omega)
        omega
      have hmod : (k + 1) % R < 36 := by
        have := Nat.mod_lt (k + 1) (show 0 < R by omega)
        omega
      have hred : toRadixAux R alpha (m + 1) (k + 1)
          = toRadixAux R alpha m ((k + 1) / R) ++ [alpha.getD ((k + 1) % R) '0'] := rfl
      rw [hred, decodeRadix_append_one, ih _ hdiv, halpha _ hmod]
      rw [Nat.mul_comm]
      exact Nat.div_add_mod (k + 1) R

/-- C3: for every n and radix R in 2..36, reading the digit sequence
produced by To_Radix back as a base-R numeral over the chosen alphabet
(lower or upper case) reconstructs n; and zero always converts to the
single digit list of one zero character, for any radix and alphabet. -/
theorem c3_radix_roundtrip :
    (∀ (R n : Nat), 2 ≤ R → R ≤ 36 →
      decodeRadix R LOWER_DIGITS (To_Radix R n LOWER_DIGITS) = n
      ∧ decodeRadix R UPPER_DIGITS (To_Radix R n UPPER_DIGITS) = n)
  ∧ (∀ (R : Nat) (alpha : List Char), To_Radix R 0 alpha = ['0']) := by
  constructor
  · intro R n h2 h36
    constructor
    · by_cases hn : n = 0
      · subst hn
        have h0 : LOWER_DIGITS.indexOf '0' = 0 := rfl
        simp [To_Radix, decodeRadix, h0]
      · rw [To_Radix, if_neg hn]
        exact toRadixAux_decode R h2 h36 LOWER_DIGITS lower_digits_index n n (Nat.le_refl n)
    · by_cases hn : n = 0
      · subst hn
        have h0 : UPPER_DIGITS.indexOf '0' = 0 := rfl
        simp [To_Radix, decodeRadix, h0]
      · rw [To_Radix, if_neg hn]
        exact toRadixAux_decode R h2 h36 UPPER_DIGITS upper_digits_index n n (Nat.le_refl n)
  · intro R alpha
    rfl

/-- Witness for c3_radix_roundtrip at concrete inputs. -/
theorem c3_witness :
    decodeRadix 16 LOWER_DIGITS (To_Radix 16 255 LOWER_DIGITS) = 255
    ∧ decodeRadix 16 UPPER_DIGITS (To_Radix 16 255 UPPER_DIGITS) = 255
    ∧ To_Radix 7 0 LOWER_DIGITS = ['0'] :=
  ⟨(c3_radix_roundtrip.1 16 255 (by decide) (by decide)).1,
   (c3_radix_roundtrip.1 16 255 (by decide) (by decide)).2,
   c3_radix_roundtrip.2 7 LOWER_DIGITS⟩

/-- C5, counterexample to the claim as stated: the claim asserts that a
minus sign is emitted for every negative value, but Format_Integer
checks the NEVER sign mode first (lines 439-445), so a negative value
rendered under sign mode NEVER gets no sign character at all. -/
theorem c5_claim_counterexample :
    Format_Integer { _sign := ' ' } 5 true = ['5']
    ∧ ¬ ('-' ∈ Format_Integer { _sign := ' ' } 5 true) := by
  decide

/-- C5 (amended): unless the sign mode is NEVER, a negative value gets a
minus sign; a non-negative value under sign mode ALWAYS gets the
configured always character (the sign field itself); in all other cases
no sign character is produced; and the emitted output places that sign
character (when present) before prefix and digits. -/
theorem c5_amended :
    (∀ spec : Spec, spec._sign ≠ SIGN_NEVER → Int_sign_char spec true = '-')
  ∧ (∀ spec : Spec, spec._sign = SIGN_ALWAYS → Int_sign_char spec false = spec._sign)
  ∧ (∀ (spec : Spec) (b : Bool),
      spec._sign = SIGN_NEVER ∨ (b = false ∧ spec._sign ≠ SIGN_ALWAYS) →
      Int_sign_char spec b = '\x00')
  ∧ (∀ (spec : Spec) (i : Nat) (b : Bool), spec._align = Align.NONE →
      Format_Integer spec i b
        = (if Int_sign_char spec b ≠ '\x00' then [Int_sign_char spec b] else [])
          ++ Int_pfx spec ++ Int_digits spec i) := by
  refine ⟨?_, ?_, ?_, ?_⟩
  · intro spec h
    simp [Int_sign_char, h]
  · intro spec h
    simp [Int_sign_char, h, SIGN_ALWAYS, SIGN_NEVER]
  · intro spec b h
    rcases h with h | ⟨hb, hs⟩
    · simp [Int_sign_char, h]
    · subst hb
      by_cases hn : spec._sign = SIGN_NEVER
      · simp [Int_sign_char, hn]
      · simp [Int_sign_char, hn, hs]
  · intro spec i b h
    simp [Format_Integer, h, Write_Aligned]

/-- Witness for c5_amended at concrete inputs. -/
theorem c5_amended_witness :
    Int_sign_char { _sign := '-' } true = '-'
    ∧ Int_sign_char { _sign := '+' } false = '+'
    ∧ Int_sign_char { _sign := ' ' } true = '\x00'
    ∧ Format_Integer {} 7 false
        = (if Int_sign_char {} false ≠ '\x00' then [Int_sign_char {} false] else [])
          ++ Int_pfx {} ++ Int_digits {} 7 :=
  ⟨c5_amended.1 { _sign := '-' } (by decide),
   c5_amended.2.1 { _sign := '+' } rfl,
   c5_amended.2.2.1 { _sign := ' ' } true (Or.inl rfl),
   c5_amended.2.2.2 {} 7 false rfl⟩

/-- C6: when the spec still carries the default precision the float
formatter uses fraction precision 2; the fraction is scaled by the
power of ten and rounded by adding one half before truncation, so
3.145 at the default precision renders as 3.15; and a value with no
fractional part such as 3.0 goes through the integer path and renders
as the bare digit 3. -/
theorem c6_float_rounding :
    (∀ spec : Spec, spec._prec = -1 → precisionOf spec = 2)
  ∧ Format_Float Spec.DEFAULT ((629 : Rat) / 200) false = ['3', '.', '1', '5']
  ∧ Format_Float Spec.DEFAULT (3 : Rat) false = ['3'] := by
  refine ⟨?_, ?_, ?_⟩
  · intro spec h
    simp [precisionOf, Spec.DEFAULT, h]
  · with_unfolding_all decide
  · with_unfolding_all decide

/-- Witness for c6_float_rounding: the default spec carries the default
precision, so precision 2 is used. -/
theorem c6_witness : precisionOf Spec.DEFAULT = 2 :=
  c6_float_rounding.1 Spec.DEFAULT rfl

/-- C7: malformed specifiers and templates raise a synchronous parse
error (an Except.error value, so no parse result is produced): a
precision dot with no parseable digit run after it, a max-width comma
with no parseable digit run after it, a closing delimiter whose
character run has no preceding opener, an opener with no closing
delimiter anywhere after it, and a lone delimiter as the final
character. -/
theorem c7_parse_errors :
    (∀ (spec : Spec) (sz : List Char), sz.headD '\x00' = '.' →
      ((sz.drop 1).dropWhile isSpaceC).takeWhile isDigitC = [] →
      parsePrec spec sz = Except.error "Precision mark without precision")
  ∧ (∀ (spec : Spec) (sz : List Char), sz.headD '\x00' = ',' →
      ((sz.drop 1).dropWhile isSpaceC).takeWhile isDigitC = [] →
      parseMax spec sz = Except.error "Maximum width mark without width")
  ∧ (∀ fmt : List Char,
      fmt.findIdx (fun c => c == '\x7b' || c == '\x7d') + 1 < fmt.length →
      fmt.getD (fmt.findIdx (fun c => c == '\x7b' || c == '\x7d')) '\x00' = '\x7d' →
      fmt.getD (fmt.findIdx (fun c => c == '\x7b' || c == '\x7d') + 1) '\x00' ≠ '\x7d' →
      tvx_parse fmt = Except.error "Unopened \x7d in format string.")
  ∧ (∀ fmt : List Char,
      fmt.findIdx (fun c => c == '\x7b' || c == '\x7d') + 1 < fmt.length →
      fmt.getD (fmt.findIdx (fun c => c == '\x7b' || c == '\x7d')) '\x00' = '\x7b' →
      fmt.getD (fmt.findIdx (fun c => c == '\x7b' || c == '\x7d') + 1) '\x00' ≠ '\x7b' →
      (fmt.drop (fmt.findIdx (fun c => c == '\x7b' || c == '\x7d') + 1)).findIdx
          (fun c => c == '\x7d')
        = (fmt.drop (fmt.findIdx (fun c => c == '\x7b' || c == '\x7d') + 1)).length →
      tvx_parse fmt = Except.error "BWFormat: Unclosed \x7b in format string")
  ∧ (∀ fmt : List Char,
      fmt.findIdx (fun c => c == '\x7b' || c == '\x7d') ≠ fmt.length →
      fmt.findIdx (fun c => c == '\x7b' || c == '\x7d') + 1 = fmt.length →
      tvx_parse fmt = Except.error "Invalid trailing character in format string.") := by
  refine ⟨?_, ?_, ?_, ?_, ?_⟩
  · intro spec sz h1 h2
    simp only [parsePrec, if_pos h1, radix10, h2]
    simp
  · intro spec sz h1 h2
    simp only [parseMax, if_pos h1, radix10, h2]
    simp
  · intro fmt h1 h2 h3
    simp only [tvx_parse]
    rw [if_neg (by omega), if_pos h1]
    rw [if_neg (by intro hcc; rw [h2] at hcc; exact h3 hcc.symm)]
    rw [if_pos h2]
  · intro fmt h1 h2 h3 h4
    simp only [tvx_parse]
    rw [if_neg (by omega), if_pos h1]
    rw [if_neg (by intro hcc; rw [h2] at hcc; exact h3 hcc.symm)]
    rw [if_neg (by rw [h2]; decide)]
    rw [if_neg (by simp [List.length_drop]; omega)]
    rw [if_pos h4]
  · intro fmt h1 h2
    simp only [tvx_parse]
    rw [if_neg h1, if_neg (by omega)]

/-- Witness for c7_parse_errors at concrete inputs. -/
theorem c7_parse_errors_witness :
    parsePrec {} ['.', 'x'] = Except.error "Precision mark without precision"
    ∧ parseMax {} [','] = Except.error "Maximum width mark without width"
    ∧ tvx_parse ['a', '\x7d', 'b'] = Except.error "Unopened \x7d in format string."
    ∧ tvx_parse ['\x7b', 'a', 'b'] = Except.error "BWFormat: Unclosed \x7b in format string"
    ∧ tvx_parse ['a', 'b', '\x7b'] = Except.error "Invalid trailing character in format string." :=
  ⟨c7_parse_errors.1 {} ['.', 'x'] (by decide) (by decide),
   c7_parse_errors.2.1 {} [','] (by decide) (by decide),
   c7_parse_errors.2.2.1 ['a', '\x7d', 'b'] (by decide) (by decide) (by decide),
   c7_parse_errors.2.2.2.1 ['\x7b', 'a', 'b'] (by decide) (by decide) (by decide) (by decide),
   c7_parse_errors.2.2.2.2 ['a', 'b', '\x7b'] (by decide) (by decide)⟩

theorem patternLoop_bound : ∀ (fuel : Nat) (text : List Char) (limit n : Nat),
    patternLoop text limit fuel n = []
    ∨ (patternLoop text limit fuel n).length + n + 1 ≤ limit + text.length := by
  intro fuel
  induction fuel with
  | zero => intro text limit n; exact Or.inl rfl
  | succ m ih =>
    intro text limit n
    by_cases h : n < limit
    · right
      rw [patternLoop, if_pos h]
      rcases ih text limit (n + text.length) with h2 | h2
      · rw [h2, List.append_nil]
        omega
      · simp only [List.length_append]
        omega
    · left
      rw [patternLoop, if_neg h]

/-- C8, counterexample to the claim as stated: the loop writes whole
copies of the pattern while the running count is below the limit, so a
pattern of two bytes with max width 3 and two repetitions writes four
bytes, exceeding the max width. -/
theorem c8_claim_counterexample :
    (bwformat_pattern { _max := 3 } ['a', 'b'] 2).length = 4
    ∧ ¬ ((bwformat_pattern { _max := 3 } ['a', 'b'] 2).length ≤ 3) := by
  decide

/-- C8 (amended): the repeated-pattern renderer writes whole copies of
the pattern until the byte count reaches min(max width, pattern length
times count), so its output exceeds max width by at most pattern length
minus one bytes. -/
theorem c8_amended (spec : Spec) (text : List Char) (count : Nat) :
    (bwformat_pattern spec text count).length ≤ spec._max + (text.length - 1) := by
  unfold bwformat_pattern
  dsimp only
  rcases patternLoop_bound (min spec._max (text.length * count)) text
      (min spec._max (text.length * count)) 0 with h | h
  · rw [h]
    simp
  · have hmin : min spec._max (text.length * count) ≤ spec._max := Nat.min_le_left _ _
    omega

theorem hex_dump_length (sv digits : List Char) :
    (Hex_Dump sv digits).length = 2 * sv.length := by
  induction sv with
  | nil => rfl
  | cons c rest ih =>
    simp only [Hex_Dump, List.length_cons, ih]
    omega

/-- C10: the hex dump writes exactly two hex digits per input byte; for
a string rendered with type x (lower case) or X (upper case) and no
precision truncation, with the default NONE alignment, the output is
exactly the optional 0x or 0X prefix followed by the hex dump, of length
two per byte plus two for the prefix when the radix lead flag is set. -/
theorem c10_hex_string_render :
    (∀ sv digits : List Char, (Hex_Dump sv digits).length = 2 * sv.length)
  ∧ (∀ (spec : Spec) (sv : List Char), spec._type = 'x' → spec._prec ≤ 0 →
      spec._align = Align.NONE →
      bwformat_sv spec sv
        = (if spec._radix_lead_p then ['0', 'x'] else []) ++ Hex_Dump sv LOWER_DIGITS
      ∧ (bwformat_sv spec sv).length
          = (if spec._radix_lead_p then 2 else 0) + 2 * sv.length)
  ∧ (∀ (spec : Spec) (sv : List Char), spec._type = 'X' → spec._prec ≤ 0 →
      spec._align = Align.NONE →
      bwformat_sv spec sv
        = (if spec._radix_lead_p then ['0', 'X'] else []) ++ Hex_Dump sv UPPER_DIGITS
      ∧ (bwformat_sv spec sv).length
          = (if spec._radix_lead_p then 2 else 0) + 2 * sv.length) := by
  refine ⟨hex_dump_length, ?_, ?_⟩
  · intro spec sv ht hp ha
    have hnp : ¬ (0 < spec._prec) := by omega
    have heq : bwformat_sv spec sv
        = (if spec._radix_lead_p then ['0', 'x'] else []) ++ Hex_Dump sv LOWER_DIGITS := by
      by_cases hlead : spec._radix_lead_p <;>
        simp [bwformat_sv, hnp, ht, ha, hlead, Write_Aligned]
    refine ⟨heq, ?_⟩
    rw [heq]
    by_cases hlead : spec._radix_lead_p
    · simp [hlead, hex_dump_length]
      omega
    · simp [hlead, hex_dump_length]
  · intro spec sv ht hp ha
    have hnp : ¬ (0 < spec._prec) := by omega
    have heq : bwformat_sv spec sv
        = (if spec._radix_lead_p then ['0', 'X'] else []) ++ Hex_Dump sv UPPER_DIGITS := by
      by_cases hlead : spec._radix_lead_p <;>
        simp [bwformat_sv, hnp, ht, ha, hlead, Write_Aligned]
    refine ⟨heq, ?_⟩
    rw [heq]
    by_cases hlead : spec._radix_lead_p
    · simp [hlead, hex_dump_length]
      omega
    · simp [hlead, hex_dump_length]

/-- Witness for c10_hex_string_render at concrete inputs. -/
theorem c10_witness :
    bwformat_sv { _type := 'x', _radix_lead_p := true } ['\x01', '\xfe']
      = ['0', 'x'] ++ Hex_Dump ['\x01', '\xfe'] LOWER_DIGITS
    ∧ (bwformat_sv { _type := 'X' } ['a']).length = 0 + 2 * 1 :=
  ⟨(c10_hex_string_render.2.1 { _type := 'x', _radix_lead_p := true }
      ['\x01', '\xfe'] rfl (by decide) rfl).1,
   (c10_hex_string_render.2.2 { _type := 'X' } ['a'] rfl (by decide) rfl).2⟩

/-- C1, evaluation at the failing input: the claim (and the spec) say
the k-th bare specifier receives implicit index k, but compiling the
template of two bare specifiers produces items with indices 0 and 2.
The loop advances the counter twice per unnamed specifier: once by the
postfix increment when assigning the implicit index (line 653), and
once more in the nonnegative-index check (lines 655-657). -/
theorem c1_implicit_index_double_advance :
    Format_compile ['\x7b', '\x7d', '\x7b', '\x7d']
      = Except.ok [{ _idx := 0 }, { _idx := 2 }] := by
  rfl

/-- C4, evaluation at the failing inputs: the translator never removes
the digits parsed for a literal width or precision (radix10 receives a
copy of the view and no remove call follows, lines 1024-1029 and
1036-1043), so the conversion-character switch reads the first digit
and aborts through its default case, returning the consumed text as a
literal: translating the 5d conversion yields the literal percent-5 and
no specifier, and likewise for the minus-5-dot-2-f conversion.  The
star-width path does advance past the star, so that conversion still
emits the capture specifier with extension w, and after capture of the
width the saved d specifier is replayed with the captured min width. -/
theorem c4_printf_translator_eval :
    cfp { fmt := ['%', '5', 'd'] } = (['%', '5'], none, { fmt := ['d'] })
    ∧ cfp { fmt := ['%', '-', '5', '.', '2', 'f'] }
        = (['%', '-', '5'], none, { fmt := ['.', '2', 'f'] })
    ∧ cfp { fmt := ['%', '*', 'd'] }
        = ([], some { _type := CAPTURE_TYPE, _ext := ['w'] },
           { fmt := [], saved_p := true, saved := { _align := Align.RIGHT, _type := 'd' } })
    ∧ cfp (cf_capture { fmt := [], saved_p := true, saved := { _align := Align.RIGHT, _type := 'd' } } { _type := CAPTURE_TYPE, _ext := ['w'] } 7)
        = ([], some { _align := Align.RIGHT, _type := 'd', _min := 7 },
           { fmt := [], saved := { _align := Align.RIGHT, _type := 'd', _min := 7 } }) := by
  refine ⟨rfl, rfl, rfl, rfl⟩

end BWF
